import Mathlib

/-!
A shallow embedding of `src/mdqp.py`: an incremental mirror of a directory
of XML entity-descriptor files against a "seen" snapshot, with two durable
work queues (daily/bootstrap and delta/incremental), a per-run fetch budget,
and a fetch of digest-keyed signed metadata from a remote MDQ service.

File contents are modelled as `String`s; the SHA-1 hex digest and the XML
parser are abstract parameters (`HashFn`, `ParseFn`): the embedding only
relies on them being functions of their input, exactly as the Python code
does.  Python's `Optional[str]` is `Option String`, and Python truthiness
of such a value (`if not entityid`) is `falsyOptStr`.
-/

namespace Mdqp

/-- The result of `xml.etree.ElementTree.parse` as far as mdqp.py looks at
it: the root element's optional `entityID` attribute. -/
structure XmlTree where
  entityID : Option String
deriving Repr, DecidableEq

/-- Abstract XML parser: `None` models `ET.ParseError`. -/
abbrev ParseFn := String → Option XmlTree

/-- Abstract SHA-1 hex digest of a byte string. -/
abbrev HashFn := String → String

/-- Python truthiness of an `Optional[str]`: `None` and `""` are falsy. -/
def falsyOptStr : Option String → Bool
  | none => true
  | some s => s.isEmpty

/-- `sha1sum(filename)` (mdqp.py lines 17-24): the SHA-1 hex digest of the
file's full byte content (the chunked streaming is digest-equivalent to
hashing the whole content). -/
def sha1sum (sha1 : HashFn) (content : String) : String := sha1 content

/-- `xml_to_tree(file)` (lines 89-96): parse the file as XML, `None` on a
parse error. -/
def xml_to_tree (parse : ParseFn) (content : String) : Option XmlTree :=
  parse content

/-- `get_entityid(parsed_metadata)` (lines 76-86): the root's `entityID`
attribute, `None` when the attribute is missing. -/
def get_entityid (t : XmlTree) : Option String := t.entityID

/-- `get_entityid_from_file(file)` (lines 64-73): parse, then extract the
entityID; `None` when the parse failed (an `ElementTree` object is always
truthy, so the `if metadata:` test is exactly the `None` test). -/
def get_entityid_from_file (parse : ParseFn) (content : String) : Option String :=
  match xml_to_tree parse content with
  | none => none
  | some t => get_entityid t

/-- `shasum_entityid(entityid)` (lines 99-103): SHA-1 hex digest of the
UTF-8 encoding of the identifier. -/
def shasum_entityid (sha1 : HashFn) (entityid : String) : String :=
  sha1 entityid

/-! ### Directories

A directory is a finite list of (file name, file content) pairs; the list
order is the `os.listdir` order.  Names are unique in any directory the
program builds (a filesystem property); lemmas that need it take it as a
hypothesis. -/

/-- A directory: file names with their byte contents, in listing order. -/
abbrev Dir := List (String × String)

/-- Look a file name up in a directory (`open`/`os.path.exists`). -/
def lookupD : Dir → String → Option String
  | [], _ => none
  | (k, v) :: rest, n => if k = n then some v else lookupD rest n

/-- `os.path.exists` / `os.path.isfile` for our directories. -/
def memD (d : Dir) (n : String) : Bool :=
  (lookupD d n).isSome

/-- `shutil.copyfile` into a directory: overwrite in place, or append. -/
def setD : Dir → String → String → Dir
  | [], n, c => [(n, c)]
  | (k, v) :: rest, n, c =>
    if k = n then (n, c) :: rest else (k, v) :: setD rest n c

/-- `os.remove`: drop every entry with the given name. -/
def eraseD : Dir → String → Dir
  | [], _ => []
  | (k, v) :: rest, n =>
    if k = n then eraseD rest n else (k, v) :: eraseD rest n

/-! ### Queues

`persistqueue.SQLiteQueue(..., auto_commit=False)`: a durable FIFO.
`get` hands out the head and keeps it checked-out-but-uncommitted until
`task_done` commits; on a crash before `task_done` the checked-out items
are restored in front of the remaining queue when the store is reopened
(the spec's redelivery-not-loss contract for PersistentWorkQueue). -/

/-- A message as built at mdqp.py lines 151-155. -/
structure Msg where
  file : String
  entityid : String
  shasum : String
deriving Repr, DecidableEq

/-- A durable FIFO queue: pending messages plus checked-out-but-unacked
ones. -/
structure Queue where
  pending : List Msg
  unacked : List Msg
deriving Repr, DecidableEq

/-- A freshly created (or reset) queue. -/
def Queue.empty : Queue := ⟨[], []⟩

/-- `q.put(message)`: append at the tail. -/
def Queue.put (q : Queue) (m : Msg) : Queue :=
  ⟨q.pending ++ [m], q.unacked⟩

/-- `q.size`: messages visible to the consumer's own connection (a
checked-out item's uncommitted delete is visible to it, so only `pending`
counts). -/
def Queue.size (q : Queue) : Nat := q.pending.length

/-- `q.get()`: remove the head of `pending`, holding it unacked. -/
def Queue.get : Queue → Option (Msg × Queue)
  | ⟨[], _⟩ => none
  | ⟨m :: rest, u⟩ => some (m, ⟨rest, u ++ [m]⟩)

/-- `q.task_done()`: commit, permanently dropping the checked-out items. -/
def Queue.task_done (q : Queue) : Queue := ⟨q.pending, []⟩

/-- Reopening the store after a crash: checked-out items were never
committed away, so they come back in front of the remaining pending ones. -/
def Queue.reopen (q : Queue) : Queue := ⟨q.unacked ++ q.pending, []⟩

/-! ### Budget (mdqp.py lines 115-119 and 196) -/

/-- `runs_left = (23 - hour) * RPH + 1` (line 118); `hour` is
`datetime.now().hour`, always in `0..23`, so natural subtraction agrees
with Python here. -/
def runs_left (hour rph : Nat) : Nat := (23 - hour) * rph + 1

/-- `operations_this_run = int(total_queue_size / runs_left) + 1 +
MIN_ENTITIES_PER_RUN` (line 196); `int(a / b)` on non-negative integers
truncates, i.e. floor division. -/
def operations_this_run (total_queue_size runsLeft min_entities : Nat) : Nat :=
  total_queue_size / runsLeft + 1 + min_entities

/-! ### The incoming-directory pass (mdqp.py lines 143-177) -/

/-- The state the diff loop threads: the seen-snapshot directory and the two
queues. -/
structure DiffState where
  seen : Dir
  queue_daily : Queue
  queue_delta : Queue
deriving Repr, DecidableEq

/-- One iteration of `for entity in os.listdir(incoming_dir)` (lines
143-177): parse the incoming file; skip it on a falsy entityid; otherwise
enqueue on the daily queue (full sync), on the delta queue (new or
content-digest-changed file), copying into the seen snapshot in each
enqueueing branch, and do nothing for an unchanged file. -/
def processIncomingFile (parse : ParseFn) (sha1 : HashFn) (full_sync : Bool)
    (st : DiffState) (entity content : String) : DiffState :=
  let entityid := get_entityid_from_file parse content
  if falsyOptStr entityid then st
  else
    match entityid with
    | none => st
    | some eid =>
      let msg : Msg := ⟨entity, eid, shasum_entityid sha1 eid⟩
      if full_sync then
        { st with
          queue_daily := st.queue_daily.put msg
          seen := setD st.seen entity content }
      else
        match lookupD st.seen entity with
        | none =>
          { st with
            queue_delta := st.queue_delta.put msg
            seen := setD st.seen entity content }
        | some seenContent =>
          if sha1sum sha1 content ≠ sha1sum sha1 seenContent then
            { st with
              queue_delta := st.queue_delta.put msg
              seen := setD st.seen entity content }
          else st

/-- The whole incoming pass: fold `processIncomingFile` over the incoming
directory listing. -/
def diffIncomingPass (parse : ParseFn) (sha1 : HashFn) (full_sync : Bool)
    (incoming : Dir) (st : DiffState) : DiffState :=
  incoming.foldl (fun s p => processIncomingFile parse sha1 full_sync s p.1 p.2) st

/-! ### The removal pass (mdqp.py lines 179-187)

For a seen file with no incoming counterpart the code runs
`entityid = get_entityid_from_file(...)` and then
`shasum_entityid(entityid)` with no `None` check: when the seen copy does
not yield an entityid, `None.encode("utf-8")` raises `AttributeError` and
the run aborts.  `Except.error ()` models that uncaught exception. -/

/-- One iteration of `for entity in os.listdir(seen_metadata_dir)` (lines
180-187), threading the (seen, signed) directories. -/
def processRemovedFile (parse : ParseFn) (sha1 : HashFn) (incoming : Dir)
    (st : Dir × Dir) (entity content : String) : Except Unit (Dir × Dir) :=
  if memD incoming entity then .ok st
  else
    match get_entityid_from_file parse content with
    | none => .error ()
    | some eid =>
      let entity_sha := shasum_entityid sha1 eid
      let seen' := eraseD st.1 entity
      let signedName := "%7Bsha1%7D" ++ entity_sha
      let signed' := if memD st.2 signedName then eraseD st.2 signedName else st.2
      .ok (seen', signed')

/-- The whole removal pass: it iterates over the listing of the seen
directory taken before any deletion, as `os.listdir` snapshots it. -/
def removalPass (parse : ParseFn) (sha1 : HashFn) (incoming : Dir)
    (seen signed : Dir) : Except Unit (Dir × Dir) :=
  seen.foldlM (fun st p => processRemovedFile parse sha1 incoming st p.1 p.2)
    (seen, signed)

/-- Both diff passes in sequence, as `main` runs them (lines 143-187):
incoming pass, then removal pass. -/
def snapshotDiff (parse : ParseFn) (sha1 : HashFn) (full_sync : Bool)
    (incoming : Dir) (seen signed : Dir) (queue_daily queue_delta : Queue) :
    Except Unit (Dir × Dir × Queue × Queue) :=
  match removalPass parse sha1 incoming
      (diffIncomingPass parse sha1 full_sync incoming
        ⟨seen, queue_daily, queue_delta⟩).seen signed with
  | .error e => .error e
  | .ok (seen', signed') =>
    .ok (seen', signed',
      (diffIncomingPass parse sha1 full_sync incoming
        ⟨seen, queue_daily, queue_delta⟩).queue_daily,
      (diffIncomingPass parse sha1 full_sync incoming
        ⟨seen, queue_daily, queue_delta⟩).queue_delta)

/-! ### Run initialisation (mdqp.py lines 127-141) -/

/-- Lines 127-134 plus the queue construction at 140-141: when the
full-sync marker file is absent, touch it, set `full_sync`, and remove the
queues directory, so both queues open empty; when the marker is present the
queues open with their persisted content.  Returns
(marker present afterwards, full_sync, daily queue, delta queue). -/
def runInit (marker_exists : Bool) (persisted_daily persisted_delta : Queue) :
    Bool × Bool × Queue × Queue :=
  if marker_exists then (true, false, persisted_daily, persisted_delta)
  else (true, true, Queue.empty, Queue.empty)

/-! ### The signed-metadata fetch (mdqp.py lines 27-61) -/

/-- What mdqp.py reads of a `requests.get` response. -/
structure Response where
  status_code : Nat
  content_type : Option String
  content : String
deriving Repr, DecidableEq

/-- Filesystem effects of a fetch, in order. -/
inductive FsAction where
  | writeTmp (path : String) (body : String)
  | move (src : String) (dst : String)
deriving Repr, DecidableEq

/-- Python `str.startswith(prefix)`: the string's characters begin with
the prefix's characters. -/
def startswith (s pfx : String) : Bool :=
  pfx.data.isPrefixOf s.data

/-- The outcome of `download_signed_metadata`: the filesystem actions it
performed, and the `SystemExit` condition when it aborted the run. -/
structure FetchResult where
  actions : List FsAction
  fatal : Option String
deriving Repr, DecidableEq

/-- `download_signed_metadata(mdq, destination_dir, shasum)` (lines 27-61),
applied to the response the service returns for the shasum's URL.
`tempDir` is the process's default temporary directory
(`tempfile.NamedTemporaryFile(delete=False)` is called with no `dir=`
argument, so the temp file lands there, independent of
`destination_dir`); `tmpName` is the name the OS picks.  `shutil.move`
then moves the temp file onto the digest-keyed destination path. -/
def download_signed_metadata (parse : ParseFn) (_mdq destination_dir : String)
    (shasum : String) (resp : Response) (tempDir tmpName : String) : FetchResult :=
  if resp.status_code ≠ 200 then ⟨[], some "bad-status"⟩
  else
    match resp.content_type with
    | none => ⟨[], some "no-content-type"⟩
    | some ct =>
      if ¬ startswith ct "application/xml" then ⟨[], some "bad-content-type"⟩
      else
        let tmpPath := tempDir ++ "/" ++ tmpName
        let written := [FsAction.writeTmp tmpPath resp.content]
        match xml_to_tree parse resp.content with
        | none => ⟨written, some "invalid-xml"⟩
        | some tree =>
          if falsyOptStr (get_entityid tree) then ⟨written, some "no-entityid"⟩
          else
            ⟨written ++
              [FsAction.move tmpPath (destination_dir ++ "/%7Bsha1%7D" ++ shasum)],
              none⟩

/-! ### The drain loop (mdqp.py lines 198-226) -/

/-- Which queue a message was taken from. -/
inductive QueueName where
  | delta
  | daily
deriving Repr, DecidableEq

/-- Observable events of one drain-loop run.  A `dequeued` event records
the size the delta queue had at the moment of the dequeue. -/
inductive Ev where
  | dequeued (q : QueueName) (m : Msg) (deltaSizeAtDequeue : Nat)
  | fetched (m : Msg)
  | skippedMissing (m : Msg)
  | acked (m : Msg)
deriving Repr, DecidableEq

/-- How a drain-loop run ended: `completed` (budget used up, or both queues
empty), or `aborted` by a fatal fetch (`SystemExit` escapes the loop). -/
inductive DrainResult where
  | completed (delta daily : Queue) (events : List Ev)
  | aborted (delta daily : Queue) (events : List Ev)
deriving Repr, DecidableEq

/-- Prefix events onto a drain result. -/
def DrainResult.prepend (evs : List Ev) : DrainResult → DrainResult
  | .completed d q e => .completed d q (evs ++ e)
  | .aborted d q e => .aborted d q (evs ++ e)

/-- The events of a drain result. -/
def DrainResult.events : DrainResult → List Ev
  | .completed _ _ e => e
  | .aborted _ _ e => e

/-- Everything the drain loop consults besides the queues: the incoming
directory, and the fetch environment (parser, service responses per shasum,
and the OS's choice of temp directory and names). -/
structure FetchEnv where
  parse : ParseFn
  mdq : String
  signed_dir : String
  respOf : String → Response
  tempDir : String
  tmpNameOf : String → String

/-- Whether `download_signed_metadata` raises `SystemExit` for a shasum
under this environment. -/
def fetchFatal (env : FetchEnv) (shasum : String) : Bool :=
  (download_signed_metadata env.parse env.mdq env.signed_dir shasum
      (env.respOf shasum) env.tempDir (env.tmpNameOf shasum)).fatal.isSome

/-- The `while operations_counter < operations_this_run` loop (lines
198-226), with `remaining = operations_this_run - operations_counter` as
the recursion measure.  Each iteration: take from the delta queue if its
size is non-zero, else from the daily queue if its size is non-zero, else
break; fetch when the message's source file still exists in the incoming
directory (a fatal fetch exits the process, leaving the message checked
out and unacked); then `task_done` and count the iteration. -/
def drainLoop (env : FetchEnv) (incoming : Dir) :
    Nat → Queue → Queue → DrainResult
  | 0, delta, daily => .completed delta daily []
  | Nat.succ r, delta, daily =>
    match delta.get with
    | some (m, delta₁) =>
      if memD incoming m.file then
        if fetchFatal env m.shasum then
          .aborted delta₁ daily [Ev.dequeued .delta m delta.size]
        else
          (drainLoop env incoming r delta₁.task_done daily).prepend
            [Ev.dequeued .delta m delta.size, Ev.fetched m, Ev.acked m]
      else
        (drainLoop env incoming r delta₁.task_done daily).prepend
          [Ev.dequeued .delta m delta.size, Ev.skippedMissing m, Ev.acked m]
    | none =>
      match daily.get with
      | some (m, daily₁) =>
        if memD incoming m.file then
          if fetchFatal env m.shasum then
            .aborted delta daily₁ [Ev.dequeued .daily m delta.size]
          else
            (drainLoop env incoming r delta daily₁.task_done).prepend
              [Ev.dequeued .daily m delta.size, Ev.fetched m, Ev.acked m]
        else
          (drainLoop env incoming r delta daily₁.task_done).prepend
            [Ev.dequeued .daily m delta.size, Ev.skippedMissing m, Ev.acked m]
      | none => .completed delta daily []

/-! ### Directory lemmas -/

/-- The file names of a directory, in listing order. -/
def namesOf (d : Dir) : List String := d.map Prod.fst

theorem lookupD_setD_self (d : Dir) (n c : String) :
    lookupD (setD d n c) n = some c := by
  induction d with
  | nil => simp [setD, lookupD]
  | cons p rest ih =>
    obtain ⟨k, v⟩ := p
    by_cases hk : k = n <;> simp [setD, hk, lookupD, ih]

theorem lookupD_setD_ne (d : Dir) (n c n' : String) (h : n' ≠ n) :
    lookupD (setD d n c) n' = lookupD d n' := by
  have hns : n ≠ n' := Ne.symm h
  induction d with
  | nil => simp [setD, lookupD, hns]
  | cons p rest ih =>
    obtain ⟨k, v⟩ := p
    by_cases hk : k = n
    · subst hk
      simp [setD, lookupD, hns]
    · simp [setD, lookupD, hk, ih]

theorem lookupD_eraseD_self (d : Dir) (n : String) :
    lookupD (eraseD d n) n = none := by
  induction d with
  | nil => simp [eraseD, lookupD]
  | cons p rest ih =>
    obtain ⟨k, v⟩ := p
    by_cases hk : k = n <;> simp [eraseD, hk, lookupD, ih]

theorem lookupD_eraseD_ne (d : Dir) (n n' : String) (h : n' ≠ n) :
    lookupD (eraseD d n) n' = lookupD d n' := by
  have hns : n ≠ n' := Ne.symm h
  induction d with
  | nil => simp [eraseD, lookupD]
  | cons p rest ih =>
    obtain ⟨k, v⟩ := p
    by_cases hk : k = n
    · subst hk
      simp [eraseD, lookupD, hns, ih]
    · simp [eraseD, lookupD, hk, ih]

theorem lookupD_isSome_of_mem (d : Dir) (n c : String) (h : (n, c) ∈ d) :
    (lookupD d n).isSome = true := by
  induction d with
  | nil => cases h
  | cons p rest ih =>
    obtain ⟨k, v⟩ := p
    rcases List.mem_cons.mp h with h1 | h1
    · cases h1
      simp [lookupD]
    · by_cases hk : k = n
      · simp [lookupD, hk]
      · simpa [lookupD, hk] using ih h1

theorem memD_of_mem (d : Dir) (n c : String) (h : (n, c) ∈ d) :
    memD d n = true :=
  lookupD_isSome_of_mem d n c h

theorem mem_namesOf_of_lookupD (d : Dir) (n c : String)
    (h : lookupD d n = some c) : n ∈ namesOf d := by
  induction d with
  | nil => simp [lookupD] at h
  | cons p rest ih =>
    obtain ⟨k, v⟩ := p
    by_cases hk : k = n
    · simp [namesOf, hk]
    · simp only [lookupD, hk, if_false] at h
      simp only [namesOf, List.map_cons]
      exact List.mem_cons_of_mem _ (ih h)

/-! ### Incoming-pass step lemmas -/

/-- The message `processIncomingFile` would enqueue for a file, `none` when
the file is skipped for a falsy entityid. -/
def enqueuedMsg (parse : ParseFn) (sha1 : HashFn) (p : String × String) :
    Option Msg :=
  match get_entityid_from_file parse p.2 with
  | none => none
  | some eid =>
    if eid.isEmpty then none
    else some ⟨p.1, eid, shasum_entityid sha1 eid⟩

theorem processIncomingFile_falsy (parse : ParseFn) (sha1 : HashFn)
    (full_sync : Bool) (st : DiffState) (entity content : String)
    (h : falsyOptStr (get_entityid_from_file parse content) = true) :
    processIncomingFile parse sha1 full_sync st entity content = st := by
  unfold processIncomingFile
  simp only [h, if_true]

theorem processIncomingFile_sha_agrees (parse : ParseFn) (sha1 : HashFn)
    (st : DiffState) (entity content c' : String)
    (h1 : lookupD st.seen entity = some c') (h2 : sha1 c' = sha1 content) :
    processIncomingFile parse sha1 false st entity content = st := by
  unfold processIncomingFile
  cases he : get_entityid_from_file parse content with
  | none => simp [falsyOptStr]
  | some eid =>
    by_cases hemp : eid.isEmpty
    · simp [falsyOptStr, hemp]
    · simp [falsyOptStr, hemp, h1, sha1sum, h2]

theorem processIncomingFile_seen_cases (parse : ParseFn) (sha1 : HashFn)
    (full_sync : Bool) (st : DiffState) (entity content : String) :
    (processIncomingFile parse sha1 full_sync st entity content).seen = st.seen ∨
      (processIncomingFile parse sha1 full_sync st entity content).seen =
        setD st.seen entity content := by
  unfold processIncomingFile
  cases he : get_entityid_from_file parse content with
  | none => simp [falsyOptStr]
  | some eid =>
    by_cases hemp : eid.isEmpty
    · simp [falsyOptStr, hemp]
    · cases full_sync with
      | true => simp [falsyOptStr, hemp]
      | false =>
        cases hl : lookupD st.seen entity with
        | none => simp [falsyOptStr, hemp, hl]
        | some c' =>
          by_cases hsha : sha1sum sha1 content ≠ sha1sum sha1 c' <;>
            simp [falsyOptStr, hemp, hl, hsha]

theorem processIncomingFile_lookup_self (parse : ParseFn) (sha1 : HashFn)
    (full_sync : Bool) (st : DiffState) (entity content : String)
    (h : falsyOptStr (get_entityid_from_file parse content) = false) :
    ∃ c', lookupD (processIncomingFile parse sha1 full_sync st entity content).seen
        entity = some c' ∧ sha1 c' = sha1 content := by
  unfold processIncomingFile
  cases he : get_entityid_from_file parse content with
  | none => simp [falsyOptStr, he] at h
  | some eid =>
    rw [he] at h
    have hemp : eid.isEmpty = false := by simpa [falsyOptStr] using h
    cases full_sync with
    | true =>
      exact ⟨content, by simp [falsyOptStr, hemp, lookupD_setD_self], rfl⟩
    | false =>
      cases hl : lookupD st.seen entity with
      | none =>
        exact ⟨content, by simp [falsyOptStr, hemp, hl, lookupD_setD_self], rfl⟩
      | some c' =>
        by_cases hsha : sha1sum sha1 content ≠ sha1sum sha1 c'
        · exact ⟨content, by simp [falsyOptStr, hemp, hl, hsha, lookupD_setD_self], rfl⟩
        · refine ⟨c', by simp [falsyOptStr, hemp, hl, hsha], ?_⟩
          have : sha1sum sha1 content = sha1sum sha1 c' := by
            by_contra hne
            exact hsha hne
          simpa [sha1sum] using this.symm

theorem processIncomingFile_full_sync_lookup (parse : ParseFn) (sha1 : HashFn)
    (st : DiffState) (entity content : String)
    (h : falsyOptStr (get_entityid_from_file parse content) = false) :
    lookupD (processIncomingFile parse sha1 true st entity content).seen entity
      = some content := by
  unfold processIncomingFile
  cases he : get_entityid_from_file parse content with
  | none => simp [falsyOptStr, he] at h
  | some eid =>
    rw [he] at h
    have hemp : eid.isEmpty = false := by simpa [falsyOptStr] using h
    simp [falsyOptStr, hemp, lookupD_setD_self]

theorem processIncomingFile_full_sync_queues (parse : ParseFn) (sha1 : HashFn)
    (st : DiffState) (entity content : String) :
    (processIncomingFile parse sha1 true st entity content).queue_delta
        = st.queue_delta ∧
      (processIncomingFile parse sha1 true st entity content).queue_daily.pending
        = st.queue_daily.pending
            ++ (enqueuedMsg parse sha1 (entity, content)).toList ∧
      (processIncomingFile parse sha1 true st entity content).queue_daily.unacked
        = st.queue_daily.unacked := by
  unfold processIncomingFile enqueuedMsg
  cases he : get_entityid_from_file parse content with
  | none => simp [falsyOptStr]
  | some eid =>
    by_cases hemp : eid.isEmpty
    · simp [falsyOptStr, hemp]
    · simp [falsyOptStr, hemp, Queue.put]

/-! ### Incoming-pass fold lemmas -/

theorem diffIncomingPass_cons (parse : ParseFn) (sha1 : HashFn)
    (full_sync : Bool) (p : String × String) (l : List (String × String))
    (st : DiffState) :
    diffIncomingPass parse sha1 full_sync (p :: l) st =
      diffIncomingPass parse sha1 full_sync l
        (processIncomingFile parse sha1 full_sync st p.1 p.2) := by
  simp [diffIncomingPass]

theorem diffIncomingPass_nil (parse : ParseFn) (sha1 : HashFn)
    (full_sync : Bool) (st : DiffState) :
    diffIncomingPass parse sha1 full_sync [] st = st := by
  simp [diffIncomingPass]

theorem diffIncomingPass_id_of_agree (parse : ParseFn) (sha1 : HashFn)
    (l : List (String × String)) (st : DiffState)
    (h : ∀ p ∈ l, falsyOptStr (get_entityid_from_file parse p.2) = true ∨
      ∃ c', lookupD st.seen p.1 = some c' ∧ sha1 c' = sha1 p.2) :
    diffIncomingPass parse sha1 false l st = st := by
  induction l with
  | nil => exact diffIncomingPass_nil parse sha1 false st
  | cons p rest ih =>
    have hstep : processIncomingFile parse sha1 false st p.1 p.2 = st := by
      rcases h p (List.mem_cons_self p rest) with hf | ⟨c', hc, hs⟩
      · exact processIncomingFile_falsy parse sha1 false st p.1 p.2 hf
      · exact processIncomingFile_sha_agrees parse sha1 st p.1 p.2 c' hc hs
    rw [diffIncomingPass_cons, hstep]
    exact ih (fun q hq => h q (List.mem_cons_of_mem p hq))

theorem diffIncomingPass_lookup_of_not_mem (parse : ParseFn) (sha1 : HashFn)
    (full_sync : Bool) (l : List (String × String)) (st : DiffState)
    (n : String) (hn : n ∉ namesOf l) :
    lookupD (diffIncomingPass parse sha1 full_sync l st).seen n =
      lookupD st.seen n := by
  induction l generalizing st with
  | nil => rw [diffIncomingPass_nil]
  | cons p rest ih =>
    have hn1 : n ≠ p.1 := by
      intro he
      exact hn (by simp [namesOf, he])
    have hn2 : n ∉ namesOf rest := by
      intro he
      exact hn (by simp [namesOf] at he ⊢; exact Or.inr he)
    rw [diffIncomingPass_cons]
    rw [ih _ hn2]
    rcases processIncomingFile_seen_cases parse sha1 full_sync st p.1 p.2 with
      hc | hc
    · rw [hc]
    · rw [hc, lookupD_setD_ne _ _ _ _ hn1]

theorem diffIncomingPass_lookup_processed (parse : ParseFn) (sha1 : HashFn)
    (full_sync : Bool) (l : List (String × String)) (st : DiffState)
    (hnodup : (namesOf l).Nodup) (p : String × String) (hp : p ∈ l)
    (htruthy : falsyOptStr (get_entityid_from_file parse p.2) = false) :
    ∃ c', lookupD (diffIncomingPass parse sha1 full_sync l st).seen p.1 = some c'
      ∧ sha1 c' = sha1 p.2 := by
  induction l generalizing st with
  | nil => cases hp
  | cons q rest ih =>
    have hnodup' : (namesOf rest).Nodup := by
      simpa [namesOf] using hnodup.of_cons
    rcases List.mem_cons.mp hp with h1 | h1
    · subst h1
      obtain ⟨c', hc, hs⟩ :=
        processIncomingFile_lookup_self parse sha1 full_sync st p.1 p.2 htruthy
      have hnot : p.1 ∉ namesOf rest := by
        have h := hnodup
        rw [show namesOf (p :: rest) = p.1 :: namesOf rest from rfl] at h
        exact (List.nodup_cons.mp h).1
      rw [diffIncomingPass_cons]
      exact ⟨c', by rw [diffIncomingPass_lookup_of_not_mem _ _ _ _ _ _ hnot]; exact hc, hs⟩
    · rw [diffIncomingPass_cons]
      exact ih _ hnodup' h1

theorem diffIncomingPass_full_sync_lookup_processed (parse : ParseFn)
    (sha1 : HashFn) (l : List (String × String)) (st : DiffState)
    (hnodup : (namesOf l).Nodup) (p : String × String) (hp : p ∈ l)
    (htruthy : falsyOptStr (get_entityid_from_file parse p.2) = false) :
    lookupD (diffIncomingPass parse sha1 true l st).seen p.1 = some p.2 := by
  induction l generalizing st with
  | nil => cases hp
  | cons q rest ih =>
    have hnodup' : (namesOf rest).Nodup := by
      simpa [namesOf] using hnodup.of_cons
    rcases List.mem_cons.mp hp with h1 | h1
    · subst h1
      have hc := processIncomingFile_full_sync_lookup parse sha1 st p.1 p.2 htruthy
      have hnot : p.1 ∉ namesOf rest := by
        have h := hnodup
        rw [show namesOf (p :: rest) = p.1 :: namesOf rest from rfl] at h
        exact (List.nodup_cons.mp h).1
      rw [diffIncomingPass_cons]
      rw [diffIncomingPass_lookup_of_not_mem _ _ _ _ _ _ hnot]
      exact hc
    · rw [diffIncomingPass_cons]
      exact ih _ hnodup' h1

theorem diffIncomingPass_full_sync_queues (parse : ParseFn) (sha1 : HashFn)
    (l : List (String × String)) (st : DiffState) :
    (diffIncomingPass parse sha1 true l st).queue_delta = st.queue_delta ∧
      (diffIncomingPass parse sha1 true l st).queue_daily.pending =
        st.queue_daily.pending ++ l.filterMap (enqueuedMsg parse sha1) ∧
      (diffIncomingPass parse sha1 true l st).queue_daily.unacked =
        st.queue_daily.unacked := by
  induction l generalizing st with
  | nil => simp [diffIncomingPass_nil]
  | cons p rest ih =>
    rw [diffIncomingPass_cons]
    obtain ⟨h1, h2, h3⟩ :=
      processIncomingFile_full_sync_queues parse sha1 st p.1 p.2
    obtain ⟨ih1, ih2, ih3⟩ := ih (processIncomingFile parse sha1 true st p.1 p.2)
    refine ⟨by rw [ih1, h1], ?_, by rw [ih3, h3]⟩
    rw [ih2, h2]
    cases hm : enqueuedMsg parse sha1 p with
    | none => simp [List.filterMap_cons, hm]
    | some m => simp [List.filterMap_cons, hm]

/-! ### Removal-pass lemmas -/

/-- The removal pass's fold, with the iterated listing decoupled from the
threaded state (the pass starts them equal). -/
def removalFold (parse : ParseFn) (sha1 : HashFn) (incoming : Dir)
    (l : List (String × String)) (st : Dir × Dir) : Except Unit (Dir × Dir) :=
  l.foldlM (fun s p => processRemovedFile parse sha1 incoming s p.1 p.2) st

theorem removalPass_eq_fold (parse : ParseFn) (sha1 : HashFn) (incoming : Dir)
    (seen signed : Dir) :
    removalPass parse sha1 incoming seen signed =
      removalFold parse sha1 incoming seen (seen, signed) := rfl

theorem removalFold_nil (parse : ParseFn) (sha1 : HashFn) (incoming : Dir)
    (st : Dir × Dir) : removalFold parse sha1 incoming [] st = .ok st := rfl

theorem removalFold_cons (parse : ParseFn) (sha1 : HashFn) (incoming : Dir)
    (p : String × String) (l : List (String × String)) (st : Dir × Dir) :
    removalFold parse sha1 incoming (p :: l) st =
      (processRemovedFile parse sha1 incoming st p.1 p.2).bind
        (fun s => removalFold parse sha1 incoming l s) := by
  simp [removalFold, List.foldlM_cons]
  rfl

theorem processRemovedFile_present (parse : ParseFn) (sha1 : HashFn)
    (incoming : Dir) (st : Dir × Dir) (entity content : String)
    (h : memD incoming entity = true) :
    processRemovedFile parse sha1 incoming st entity content = .ok st := by
  simp [processRemovedFile, h]

theorem processRemovedFile_absent_no_id (parse : ParseFn) (sha1 : HashFn)
    (incoming : Dir) (st : Dir × Dir) (entity content : String)
    (h : memD incoming entity = false)
    (hid : get_entityid_from_file parse content = none) :
    processRemovedFile parse sha1 incoming st entity content = .error () := by
  simp [processRemovedFile, h, hid]

theorem processRemovedFile_absent_id (parse : ParseFn) (sha1 : HashFn)
    (incoming : Dir) (st : Dir × Dir) (entity content eid : String)
    (h : memD incoming entity = false)
    (hid : get_entityid_from_file parse content = some eid) :
    processRemovedFile parse sha1 incoming st entity content =
      .ok (eraseD st.1 entity,
        if memD st.2 ("%7Bsha1%7D" ++ shasum_entityid sha1 eid) then
          eraseD st.2 ("%7Bsha1%7D" ++ shasum_entityid sha1 eid)
        else st.2) := by
  simp [processRemovedFile, h, hid]

theorem processRemovedFile_ok_seen (parse : ParseFn) (sha1 : HashFn)
    (incoming : Dir) (st st' : Dir × Dir) (entity content : String)
    (h : processRemovedFile parse sha1 incoming st entity content = .ok st') :
    (memD incoming entity = true ∧ st' = st) ∨
      (memD incoming entity = false ∧ st'.1 = eraseD st.1 entity) := by
  by_cases hm : memD incoming entity = true
  · rw [processRemovedFile_present parse sha1 incoming st entity content hm] at h
    exact Or.inl ⟨hm, by cases h; rfl⟩
  · have hm' : memD incoming entity = false := by
      cases hmm : memD incoming entity
      · rfl
      · exact absurd hmm hm
    cases hid : get_entityid_from_file parse content with
    | none =>
      rw [processRemovedFile_absent_no_id parse sha1 incoming st entity content
        hm' hid] at h
      cases h
    | some eid =>
      rw [processRemovedFile_absent_id parse sha1 incoming st entity content eid
        hm' hid] at h
      cases h
      exact Or.inr ⟨hm', rfl⟩

theorem removalFold_id_of_present (parse : ParseFn) (sha1 : HashFn)
    (incoming : Dir) (l : List (String × String)) (st : Dir × Dir)
    (h : ∀ p ∈ l, memD incoming p.1 = true) :
    removalFold parse sha1 incoming l st = .ok st := by
  induction l with
  | nil => rfl
  | cons p rest ih =>
    rw [removalFold_cons,
      processRemovedFile_present parse sha1 incoming st p.1 p.2
        (h p (List.mem_cons_self p rest))]
    exact ih (fun q hq => h q (List.mem_cons_of_mem p hq))

theorem removalFold_lookup_shrinks (parse : ParseFn) (sha1 : HashFn)
    (incoming : Dir) (l : List (String × String)) (st st' : Dir × Dir)
    (h : removalFold parse sha1 incoming l st = .ok st') (n : String) :
    lookupD st'.1 n = none ∨ lookupD st'.1 n = lookupD st.1 n := by
  induction l generalizing st with
  | nil =>
    rw [removalFold_nil] at h
    cases h
    exact Or.inr rfl
  | cons p rest ih =>
    rw [removalFold_cons] at h
    cases hstep : processRemovedFile parse sha1 incoming st p.1 p.2 with
    | error e => rw [hstep] at h; cases h
    | ok st₁ =>
      rw [hstep] at h
      rcases ih st₁ h with h1 | h1
      · exact Or.inl h1
      · rcases processRemovedFile_ok_seen parse sha1 incoming st st₁ p.1 p.2
          hstep with ⟨_, h2⟩ | ⟨_, h2⟩
        · subst h2; exact Or.inr h1
        · by_cases hn : n = p.1
          · subst hn
            rw [h1, h2, lookupD_eraseD_self]
            exact Or.inl rfl
          · rw [h1, h2, lookupD_eraseD_ne _ _ _ hn]
            exact Or.inr rfl

theorem removalFold_preserves_incoming (parse : ParseFn) (sha1 : HashFn)
    (incoming : Dir) (l : List (String × String)) (st st' : Dir × Dir)
    (h : removalFold parse sha1 incoming l st = .ok st') (n : String)
    (hn : memD incoming n = true) :
    lookupD st'.1 n = lookupD st.1 n := by
  induction l generalizing st with
  | nil =>
    rw [removalFold_nil] at h
    cases h
    rfl
  | cons p rest ih =>
    rw [removalFold_cons] at h
    cases hstep : processRemovedFile parse sha1 incoming st p.1 p.2 with
    | error e => rw [hstep] at h; cases h
    | ok st₁ =>
      rw [hstep] at h
      have hrest := ih st₁ h
      rcases processRemovedFile_ok_seen parse sha1 incoming st st₁ p.1 p.2
        hstep with ⟨_, h2⟩ | ⟨habs, h2⟩
      · rw [hrest, h2]
      · have hne : n ≠ p.1 := by
          intro he
          rw [he] at hn
          rw [hn] at habs
          cases habs
        rw [hrest, h2, lookupD_eraseD_ne _ _ _ hne]

theorem removalFold_deletes_absent (parse : ParseFn) (sha1 : HashFn)
    (incoming : Dir) (l : List (String × String)) (st st' : Dir × Dir)
    (h : removalFold parse sha1 incoming l st = .ok st') (n : String)
    (hmem : n ∈ namesOf l) (habs : memD incoming n = false) :
    lookupD st'.1 n = none := by
  induction l generalizing st with
  | nil => cases hmem
  | cons p rest ih =>
    rw [removalFold_cons] at h
    cases hstep : processRemovedFile parse sha1 incoming st p.1 p.2 with
    | error e => rw [hstep] at h; cases h
    | ok st₁ =>
      rw [hstep] at h
      by_cases hn : n = p.1
      · rcases processRemovedFile_ok_seen parse sha1 incoming st st₁ p.1 p.2
          hstep with ⟨hm, _⟩ | ⟨_, h2⟩
        · rw [hn, hm] at habs
          cases habs
        · have h1 : lookupD st₁.1 n = none := by
            rw [h2, hn, lookupD_eraseD_self]
          rcases removalFold_lookup_shrinks parse sha1 incoming rest st₁ st' h n
            with h3 | h3
          · exact h3
          · rw [h3, h1]
      · have hmem' : n ∈ namesOf rest := by
          have h4 : n ∈ p.1 :: namesOf rest := by
            rw [show p.1 :: namesOf rest = namesOf (p :: rest) from rfl]
            exact hmem
          rcases List.mem_cons.mp h4 with h5 | h5
          · exact absurd h5 hn
          · exact h5
        exact ih st₁ h hmem'

/-! ### Concrete instances for witnesses -/

/-- A computable parser for concrete runs: content starting with "!" fails
to parse, content starting with "?" parses but has no entityID attribute,
anything else parses with the content itself as the entityID. -/
def testParse : ParseFn := fun s =>
  if s = "!bad" then none
  else if s = "?noid" then some ⟨none⟩
  else some ⟨some s⟩

/-- A stand-in digest function for concrete runs. -/
def testSha : HashFn := fun s => s

/-! ### The claims -/

/-- C2: for hour in 0..23, runsPerHour ≥ 1 and minPerRun ≥ 0, the per-run
budget (mdqp.py line 196) equals
floor(totalPendingDepth / ((23 - currentHour) * runsPerHour + 1)) + 1 +
minPerRun, the divisor `runs_left` (line 118) is ≥ 1, and hence the budget
itself is ≥ 1. -/
theorem budget_formula (total hour rph min_entities : Nat)
    (_hhour : hour ≤ 23) (_hrph : 1 ≤ rph) :
    operations_this_run total (runs_left hour rph) min_entities
        = total / ((23 - hour) * rph + 1) + 1 + min_entities
      ∧ 1 ≤ runs_left hour rph
      ∧ 1 ≤ operations_this_run total (runs_left hour rph) min_entities := by
  refine ⟨rfl, Nat.le_add_left 1 _, ?_⟩
  simp only [operations_this_run]
  exact le_trans (Nat.le_add_left 1 _) (Nat.le_add_right _ _)

/-- Witness for C2 at the spec's own example: depth 100 at hour 23, one run
per hour, no configured minimum. -/
theorem budget_formula_witness :
    operations_this_run 100 (runs_left 23 1) 0
        = 100 / ((23 - 23) * 1 + 1) + 1 + 0
      ∧ 1 ≤ runs_left 23 1
      ∧ 1 ≤ operations_this_run 100 (runs_left 23 1) 0 :=
  budget_formula 100 23 1 0 (by decide) (by decide)

/-- C3: `download_signed_metadata` (mdqp.py lines 27-61) raises SystemExit
(aborting the whole run) unless the HTTP status is exactly 200, a
Content-Type header is present, it starts with the XML media-type prefix
"application/xml", the body parses as XML, and the parsed root carries a
truthy entityID; equivalently, the fetch succeeds iff all of those hold.
("Lacks an entity identifier" is the code's own truthiness test: a missing
attribute and an empty-string attribute are treated alike.) -/
theorem fetch_fatal_iff (parse : ParseFn) (mdq dest shasum : String)
    (resp : Response) (tempDir tmpName : String) :
    (download_signed_metadata parse mdq dest shasum resp tempDir tmpName).fatal
        = none
      ↔ (resp.status_code = 200
          ∧ (∃ ct, resp.content_type = some ct
              ∧ startswith ct "application/xml" = true)
          ∧ (∃ t, xml_to_tree parse resp.content = some t
              ∧ falsyOptStr (get_entityid t) = false)) := by
  unfold download_signed_metadata
  by_cases h200 : resp.status_code = 200
  · cases hct : resp.content_type with
    | none => simp [h200, hct]
    | some ct =>
      by_cases hx : startswith ct "application/xml"
      · cases ht : xml_to_tree parse resp.content with
        | none => simp [h200, hct, hx, ht]
        | some t =>
          by_cases hid : falsyOptStr (get_entityid t) = true
          · simp [h200, hct, hx, ht, hid]
          · simp [h200, hct, hx, ht, hid]
      · simp [h200, hct, hx]
  · simp [h200]

/-- C7: an incoming file for which `get_entityid_from_file` yields `None`
(unparseable XML, or no entityID attribute on the root) is skipped whole:
the step leaves the queues and the seen snapshot untouched, and the pass
over the directory continues with the remaining files; the pass is total,
so the run never aborts there. -/
theorem incoming_parse_failure_skips (parse : ParseFn) (sha1 : HashFn)
    (full_sync : Bool) (st : DiffState) (entity content : String)
    (rest : List (String × String))
    (h : get_entityid_from_file parse content = none) :
    processIncomingFile parse sha1 full_sync st entity content = st
      ∧ diffIncomingPass parse sha1 full_sync ((entity, content) :: rest) st
        = diffIncomingPass parse sha1 full_sync rest st := by
  have hf : falsyOptStr (get_entityid_from_file parse content) = true := by
    rw [h]
    rfl
  have hstep := processIncomingFile_falsy parse sha1 full_sync st entity content hf
  refine ⟨hstep, ?_⟩
  rw [diffIncomingPass_cons]
  simp only []
  rw [hstep]

/-- Witness for C7: one unparseable incoming file against an empty state. -/
theorem incoming_parse_failure_skips_witness :
    processIncomingFile testParse testSha false
        ⟨[], Queue.empty, Queue.empty⟩ "a" "!bad"
        = ⟨[], Queue.empty, Queue.empty⟩
      ∧ diffIncomingPass testParse testSha false [("a", "!bad")]
          ⟨[], Queue.empty, Queue.empty⟩
        = diffIncomingPass testParse testSha false []
            ⟨[], Queue.empty, Queue.empty⟩ :=
  incoming_parse_failure_skips testParse testSha false
    ⟨[], Queue.empty, Queue.empty⟩ "a" "!bad" [] (by decide)

/-- C1 counterexample: one seen file whose content does not parse, an empty
incoming directory.  The removal pass aborts with the uncaught exception
(`shasum_entityid(None)`) — it does NOT delete the seen file and carry on,
refuting the claim that a parse failure only skips the digest-keyed
cleanup. -/
theorem removal_parse_failure_aborts_cex :
    removalPass testParse testSha [] [("a", "!bad")] [] = .error () := by
  rfl

/-- C1 (amended): for a seen file absent from the incoming directory, the
removal step parses the seen copy; when the parse yields an entityid it
deletes the seen copy and the digest-keyed signed-metadata entry if
present; when the parse yields `None`, `shasum_entityid` is applied to
`None`, the uncaught AttributeError aborts the run, and the seen file is
not deleted. -/
theorem removal_parse_failure_behavior (parse : ParseFn) (sha1 : HashFn)
    (incoming : Dir) (st : Dir × Dir) (entity content : String)
    (habs : memD incoming entity = false) :
    (get_entityid_from_file parse content = none →
        processRemovedFile parse sha1 incoming st entity content = .error ())
      ∧ ∀ eid, get_entityid_from_file parse content = some eid →
          processRemovedFile parse sha1 incoming st entity content =
            .ok (eraseD st.1 entity,
              if memD st.2 ("%7Bsha1%7D" ++ shasum_entityid sha1 eid) then
                eraseD st.2 ("%7Bsha1%7D" ++ shasum_entityid sha1 eid)
              else st.2) :=
  ⟨fun hid => processRemovedFile_absent_no_id parse sha1 incoming st entity
      content habs hid,
    fun eid hid => processRemovedFile_absent_id parse sha1 incoming st entity
      content eid habs hid⟩

/-- Witness for C1's amended claim: a concrete removal step on an
unparseable seen file. -/
theorem removal_parse_failure_behavior_witness :
    (get_entityid_from_file testParse "!bad" = none →
        processRemovedFile testParse testSha [] ([("a", "!bad")], []) "a" "!bad"
          = .error ())
      ∧ ∀ eid, get_entityid_from_file testParse "!bad" = some eid →
          processRemovedFile testParse testSha [] ([("a", "!bad")], []) "a" "!bad"
            = .ok (eraseD [("a", "!bad")] "a",
                if memD [] ("%7Bsha1%7D" ++ shasum_entityid testSha eid) then
                  eraseD [] ("%7Bsha1%7D" ++ shasum_entityid testSha eid)
                else []) :=
  removal_parse_failure_behavior testParse testSha [] ([("a", "!bad")], [])
    "a" "!bad" (by decide)

/-- C8: when the full-sync marker is absent, the run creates the marker,
resets both queues to empty before any diffing, and the full-sync incoming
pass then enqueues every file with a truthy entityid onto the daily
(bootstrap) queue in listing order while copying it into the seen
snapshot; the delta (incremental) queue stays empty throughout. -/
theorem full_sync_bootstrap (parse : ParseFn) (sha1 : HashFn)
    (incoming seen : Dir) (persisted_daily persisted_delta : Queue)
    (hnodup : (namesOf incoming).Nodup) :
    runInit false persisted_daily persisted_delta
        = (true, true, Queue.empty, Queue.empty)
      ∧ (diffIncomingPass parse sha1 true incoming
          ⟨seen, Queue.empty, Queue.empty⟩).queue_delta = Queue.empty
      ∧ (diffIncomingPass parse sha1 true incoming
          ⟨seen, Queue.empty, Queue.empty⟩).queue_daily.pending
          = incoming.filterMap (enqueuedMsg parse sha1)
      ∧ ∀ p ∈ incoming,
          falsyOptStr (get_entityid_from_file parse p.2) = false →
            lookupD (diffIncomingPass parse sha1 true incoming
              ⟨seen, Queue.empty, Queue.empty⟩).seen p.1 = some p.2 := by
  obtain ⟨h1, h2, _⟩ := diffIncomingPass_full_sync_queues parse sha1 incoming
    ⟨seen, Queue.empty, Queue.empty⟩
  refine ⟨rfl, h1, by simpa [Queue.empty] using h2, ?_⟩
  intro p hp ht
  exact diffIncomingPass_full_sync_lookup_processed parse sha1 incoming
    ⟨seen, Queue.empty, Queue.empty⟩ hnodup p hp ht

/-- Witness for C8: three incoming files, one of them unparseable; the
parseable two land on the daily queue in order and are copied to seen. -/
theorem full_sync_bootstrap_witness :
    runInit false Queue.empty Queue.empty
        = (true, true, Queue.empty, Queue.empty)
      ∧ (diffIncomingPass testParse testSha true
          [("a", "A"), ("b", "!bad"), ("c", "C")]
          ⟨[], Queue.empty, Queue.empty⟩).queue_delta = Queue.empty
      ∧ (diffIncomingPass testParse testSha true
          [("a", "A"), ("b", "!bad"), ("c", "C")]
          ⟨[], Queue.empty, Queue.empty⟩).queue_daily.pending
          = [("a", "A"), ("b", "!bad"), ("c", "C")].filterMap
              (enqueuedMsg testParse testSha)
      ∧ ∀ p ∈ [("a", "A"), ("b", "!bad"), ("c", "C")],
          falsyOptStr (get_entityid_from_file testParse p.2) = false →
            lookupD (diffIncomingPass testParse testSha true
              [("a", "A"), ("b", "!bad"), ("c", "C")]
              ⟨[], Queue.empty, Queue.empty⟩).seen p.1 = some p.2 :=
  full_sync_bootstrap testParse testSha [("a", "A"), ("b", "!bad"), ("c", "C")]
    [] Queue.empty Queue.empty (by decide)

/-- C6: over an incoming directory with distinct file names whose files all
carry a truthy entityid, once a first diff run (in either mode) has
succeeded, a second, non-full-sync diff over the unchanged incoming
directory is a no-op: it returns the same seen and signed snapshots and
leaves both queues exactly as they were handed in. -/
theorem snapshot_diff_idempotent (parse : ParseFn) (sha1 : HashFn)
    (full_sync : Bool) (incoming seen0 signed0 : Dir)
    (qd0 qdel0 qd1 qdel1 qd qdel : Queue) (seen1 signed1 : Dir)
    (hnodup : (namesOf incoming).Nodup)
    (hparse : ∀ p ∈ incoming,
      falsyOptStr (get_entityid_from_file parse p.2) = false)
    (hrun1 : snapshotDiff parse sha1 full_sync incoming seen0 signed0 qd0 qdel0
      = .ok (seen1, signed1, qd1, qdel1)) :
    snapshotDiff parse sha1 false incoming seen1 signed1 qd qdel
      = .ok (seen1, signed1, qd, qdel) := by
  have hfold1 := hrun1
  unfold snapshotDiff at hfold1
  cases hrem : removalPass parse sha1 incoming
      (diffIncomingPass parse sha1 full_sync incoming
        ⟨seen0, qd0, qdel0⟩).seen signed0 with
  | error e =>
    rw [hrem] at hfold1
    cases hfold1
  | ok pr =>
    obtain ⟨ps, pg⟩ := pr
    rw [hrem] at hfold1
    simp only [Except.ok.injEq, Prod.mk.injEq] at hfold1
    obtain ⟨hps, hpg, -, -⟩ := hfold1
    have hfold : removalFold parse sha1 incoming
        (diffIncomingPass parse sha1 full_sync incoming ⟨seen0, qd0, qdel0⟩).seen
        ((diffIncomingPass parse sha1 full_sync incoming ⟨seen0, qd0, qdel0⟩).seen,
          signed0)
        = .ok (ps, pg) := by
      rw [← removalPass_eq_fold]
      exact hrem
    have hP1 : ∀ p ∈ incoming,
        ∃ c', lookupD seen1 p.1 = some c' ∧ sha1 c' = sha1 p.2 := by
      intro p hp
      obtain ⟨c', hc, hs⟩ := diffIncomingPass_lookup_processed parse sha1
        full_sync incoming ⟨seen0, qd0, qdel0⟩ hnodup p hp (hparse p hp)
      have hmemi : memD incoming p.1 = true :=
        memD_of_mem incoming p.1 p.2 (by rw [show (p.1, p.2) = p from rfl]; exact hp)
      have hpres := removalFold_preserves_incoming parse sha1 incoming _ _ _
        hfold p.1 hmemi
      refine ⟨c', ?_, hs⟩
      rw [← hps, hpres]
      exact hc
    have hP2 : ∀ n c, (n, c) ∈ seen1 → memD incoming n = true := by
      intro n c hmem
      by_contra hfalse
      have habs : memD incoming n = false := by
        cases hmm : memD incoming n
        · rfl
        · exact absurd hmm hfalse
      have hsome : (lookupD seen1 n).isSome = true :=
        lookupD_isSome_of_mem seen1 n c hmem
      rcases removalFold_lookup_shrinks parse sha1 incoming _ _ _ hfold n with
        hsh | hsh
      · rw [hps] at hsh
        rw [hsh] at hsome
        cases hsome
      · cases hl : lookupD
            (diffIncomingPass parse sha1 full_sync incoming
              ⟨seen0, qd0, qdel0⟩).seen n with
        | none =>
          rw [hps] at hsh
          rw [hsh, hl] at hsome
          cases hsome
        | some c'' =>
          have hmemnames := mem_namesOf_of_lookupD _ n c'' hl
          have hdel := removalFold_deletes_absent parse sha1 incoming _ _ _
            hfold n hmemnames habs
          rw [hps] at hdel
          rw [hdel] at hsome
          cases hsome
    have hpass2 : diffIncomingPass parse sha1 false incoming ⟨seen1, qd, qdel⟩
        = ⟨seen1, qd, qdel⟩ := by
      apply diffIncomingPass_id_of_agree
      intro p hp
      right
      exact hP1 p hp
    have hrem2 : removalPass parse sha1 incoming seen1 signed1
        = .ok (seen1, signed1) := by
      rw [removalPass_eq_fold]
      apply removalFold_id_of_present
      intro p hp
      exact hP2 p.1 p.2 (by rw [show (p.1, p.2) = p from rfl]; exact hp)
    unfold snapshotDiff
    rw [hpass2]
    rw [hrem2]

/-- Witness for C6: one incoming file, a first run from empty snapshots,
then the second diff with fresh queues changes nothing. -/
theorem snapshot_diff_idempotent_witness :
    snapshotDiff testParse testSha false [("a", "A")] [("a", "A")] []
        Queue.empty Queue.empty
      = .ok ([("a", "A")], [], Queue.empty, Queue.empty) :=
  snapshot_diff_idempotent testParse testSha false [("a", "A")] [] []
    Queue.empty Queue.empty Queue.empty ⟨[⟨"a", "A", "A"⟩], []⟩
    Queue.empty Queue.empty [("a", "A")] [] (by decide) (by decide) (by rfl)

/-! ### Drain-loop lemmas -/

/-- The operations counter of a run: each processed message ends in exactly
one `acked` event. -/
def ackedCount (evs : List Ev) : Nat :=
  (evs.filter (fun e => match e with | Ev.acked _ => true | _ => false)).length

theorem DrainResult.events_prepend (evs : List Ev) (r : DrainResult) :
    (DrainResult.prepend evs r).events = evs ++ r.events := by
  cases r <;> rfl

theorem DrainResult.prepend_eq_completed (evs : List Ev) (r : DrainResult)
    (d q : Queue) (e : List Ev)
    (h : DrainResult.prepend evs r = .completed d q e) :
    ∃ e', r = .completed d q e' ∧ e = evs ++ e' := by
  cases r with
  | completed d' q' e' =>
    simp only [DrainResult.prepend, DrainResult.completed.injEq] at h
    exact ⟨e', by rw [h.1, h.2.1], h.2.2.symm⟩
  | aborted d' q' e' =>
    simp [DrainResult.prepend] at h

theorem ackedCount_append (x y : List Ev) :
    ackedCount (x ++ y) = ackedCount x + ackedCount y := by
  simp [ackedCount, List.filter_append]

theorem ackedCount_prefix_fetched (qn : QueueName) (m : Msg) (s : Nat) :
    ackedCount [Ev.dequeued qn m s, Ev.fetched m, Ev.acked m] = 1 := rfl

theorem ackedCount_prefix_skipped (qn : QueueName) (m : Msg) (s : Nat) :
    ackedCount [Ev.dequeued qn m s, Ev.skippedMissing m, Ev.acked m] = 1 := rfl

/-- C5: a message is dequeued from the daily (bootstrap) queue only while
the delta (incremental) queue is empty — every daily-dequeue event records
a delta size of 0 — and a completed drain either processed exactly
`budget` messages (the counter reached the budget) or stopped with both
queues' pending lists empty. -/
theorem drain_priority_and_stop (env : FetchEnv) (incoming : Dir)
    (budget : Nat) (delta daily : Queue) :
    (∀ m s, Ev.dequeued QueueName.daily m s
        ∈ (drainLoop env incoming budget delta daily).events → s = 0)
      ∧ (∀ delta' daily' evs,
          drainLoop env incoming budget delta daily
            = DrainResult.completed delta' daily' evs →
          ackedCount evs = budget
            ∨ (delta'.pending = [] ∧ daily'.pending = [])) := by
  induction budget generalizing delta daily with
  | zero =>
    constructor
    · intro m s hm
      simp [drainLoop, DrainResult.events] at hm
    · intro delta' daily' evs h
      simp only [drainLoop, DrainResult.completed.injEq] at h
      left
      rw [← h.2.2]
      rfl
  | succ r ih =>
    obtain ⟨dp, du⟩ := delta
    cases dp with
    | cons m rest =>
      by_cases hmem : memD incoming m.file
      · by_cases hfat : fetchFatal env m.shasum
        · constructor
          · intro m' s' hm
            simp [drainLoop, Queue.get, hmem, hfat, DrainResult.events] at hm
          · intro delta' daily' evs h
            simp [drainLoop, Queue.get, hmem, hfat] at h
        · constructor
          · intro m' s' hm
            rw [show drainLoop env incoming (r + 1) ⟨m :: rest, du⟩ daily
                = (drainLoop env incoming r
                    (Queue.mk rest (du ++ [m])).task_done daily).prepend
                    [Ev.dequeued QueueName.delta m (Queue.mk (m :: rest) du).size,
                      Ev.fetched m, Ev.acked m] from by
              simp [drainLoop, Queue.get, hmem, hfat]] at hm
            rw [DrainResult.events_prepend] at hm
            rcases List.mem_append.mp hm with h1 | h1
            · simp at h1
            · exact (ih _ daily).1 m' s' h1
          · intro delta' daily' evs h
            rw [show drainLoop env incoming (r + 1) ⟨m :: rest, du⟩ daily
                = (drainLoop env incoming r
                    (Queue.mk rest (du ++ [m])).task_done daily).prepend
                    [Ev.dequeued QueueName.delta m (Queue.mk (m :: rest) du).size,
                      Ev.fetched m, Ev.acked m] from by
              simp [drainLoop, Queue.get, hmem, hfat]] at h
            obtain ⟨e', hrec, hevs⟩ :=
              DrainResult.prepend_eq_completed _ _ _ _ _ h
            rcases ((ih _ daily).2 delta' daily' e' hrec) with hcount | hempty
            · left
              simp only [hevs, ackedCount_append, hcount,
                ackedCount_prefix_fetched, ackedCount_prefix_skipped]
              omega
            · right
              exact hempty
      · constructor
        · intro m' s' hm
          rw [show drainLoop env incoming (r + 1) ⟨m :: rest, du⟩ daily
              = (drainLoop env incoming r
                  (Queue.mk rest (du ++ [m])).task_done daily).prepend
                  [Ev.dequeued QueueName.delta m (Queue.mk (m :: rest) du).size,
                    Ev.skippedMissing m, Ev.acked m] from by
            simp [drainLoop, Queue.get, hmem]] at hm
          rw [DrainResult.events_prepend] at hm
          rcases List.mem_append.mp hm with h1 | h1
          · simp at h1
          · exact (ih _ daily).1 m' s' h1
        · intro delta' daily' evs h
          rw [show drainLoop env incoming (r + 1) ⟨m :: rest, du⟩ daily
              = (drainLoop env incoming r
                  (Queue.mk rest (du ++ [m])).task_done daily).prepend
                  [Ev.dequeued QueueName.delta m (Queue.mk (m :: rest) du).size,
                    Ev.skippedMissing m, Ev.acked m] from by
            simp [drainLoop, Queue.get, hmem]] at h
          obtain ⟨e', hrec, hevs⟩ :=
            DrainResult.prepend_eq_completed _ _ _ _ _ h
          rcases ((ih _ daily).2 delta' daily' e' hrec) with hcount | hempty
          · left
            simp only [hevs, ackedCount_append, hcount,
              ackedCount_prefix_fetched, ackedCount_prefix_skipped]
            omega
          · right
            exact hempty
    | nil =>
      obtain ⟨qp, qu⟩ := daily
      cases qp with
      | cons m rest =>
        by_cases hmem : memD incoming m.file
        · by_cases hfat : fetchFatal env m.shasum
          · constructor
            · intro m' s' hm
              simp only [drainLoop, Queue.get, hmem, if_true, hfat,
                DrainResult.events] at hm
              rcases List.mem_singleton.mp hm with h1
              cases h1
              rfl
            · intro delta' daily' evs h
              simp [drainLoop, Queue.get, hmem, hfat] at h
          · have hstep : drainLoop env incoming (r + 1) ⟨[], du⟩ ⟨m :: rest, qu⟩
                = (drainLoop env incoming r ⟨[], du⟩
                    (Queue.mk rest (qu ++ [m])).task_done).prepend
                    [Ev.dequeued QueueName.daily m 0,
                      Ev.fetched m, Ev.acked m] := by
              simp [drainLoop, Queue.get, Queue.size, hmem, hfat]
            constructor
            · intro m' s' hm
              rw [hstep, DrainResult.events_prepend] at hm
              rcases List.mem_append.mp hm with h1 | h1
              · simp at h1
                exact h1.2
              · exact (ih _ _).1 m' s' h1
            · intro delta' daily' evs h
              rw [hstep] at h
              obtain ⟨e', hrec, hevs⟩ :=
                DrainResult.prepend_eq_completed _ _ _ _ _ h
              rcases ((ih _ _).2 delta' daily' e' hrec) with hcount | hempty
              · left
                simp only [hevs, ackedCount_append, hcount,
                  ackedCount_prefix_fetched, ackedCount_prefix_skipped]
                omega
              · right
                exact hempty
        · have hstep : drainLoop env incoming (r + 1) ⟨[], du⟩ ⟨m :: rest, qu⟩
              = (drainLoop env incoming r ⟨[], du⟩
                  (Queue.mk rest (qu ++ [m])).task_done).prepend
                  [Ev.dequeued QueueName.daily m 0,
                    Ev.skippedMissing m, Ev.acked m] := by
            simp [drainLoop, Queue.get, Queue.size, hmem]
          constructor
          · intro m' s' hm
            rw [hstep, DrainResult.events_prepend] at hm
            rcases List.mem_append.mp hm with h1 | h1
            · simp at h1
              exact h1.2
            · exact (ih _ _).1 m' s' h1
          · intro delta' daily' evs h
            rw [hstep] at h
            obtain ⟨e', hrec, hevs⟩ :=
              DrainResult.prepend_eq_completed _ _ _ _ _ h
            rcases ((ih _ _).2 delta' daily' e' hrec) with hcount | hempty
            · left
              simp only [hevs, ackedCount_append, hcount,
                ackedCount_prefix_fetched, ackedCount_prefix_skipped]
              omega
            · right
              exact hempty
      | nil =>
        constructor
        · intro m' s' hm
          simp [drainLoop, Queue.get, DrainResult.events] at hm
        · intro delta' daily' evs h
          simp only [drainLoop, Queue.get, DrainResult.completed.injEq] at h
          right
          rw [← h.1, ← h.2.1]
          exact ⟨rfl, rfl⟩

/-- C9: a dequeued message whose source file is gone from the incoming
directory is not fetched: the iteration logs, commits the ack
(`task_done`) and spends one unit of the budget (the loop recurses with
one fewer remaining operation), exactly like a completed fetch — shown for
a dequeue from either queue. -/
theorem drain_missing_file_acked (env : FetchEnv) (incoming : Dir)
    (m : Msg) (rest du : List Msg) (daily : Queue) (r : Nat)
    (hmiss : memD incoming m.file = false) :
    drainLoop env incoming (r + 1) ⟨m :: rest, du⟩ daily
        = (drainLoop env incoming r ⟨rest, []⟩ daily).prepend
            [Ev.dequeued QueueName.delta m (rest.length + 1),
              Ev.skippedMissing m, Ev.acked m]
      ∧ ∀ ddu : List Msg,
          drainLoop env incoming (r + 1) ⟨[], ddu⟩ ⟨m :: rest, du⟩
            = (drainLoop env incoming r ⟨[], ddu⟩ ⟨rest, []⟩).prepend
                [Ev.dequeued QueueName.daily m 0,
                  Ev.skippedMissing m, Ev.acked m] := by
  constructor
  · simp [drainLoop, Queue.get, Queue.size, Queue.task_done, hmiss]
  · intro ddu
    simp [drainLoop, Queue.get, Queue.size, Queue.task_done, hmiss]

/-- Witness for C9: one message whose file is absent from an empty incoming
directory, drained with budget 1 from each queue. -/
theorem drain_missing_file_acked_witness :
    drainLoop ⟨testParse, "http://mdq.example", "/base/signed", fun _ =>
        ⟨200, some "application/xml", "A"⟩, "/tmp", fun _ => "t"⟩ []
        (0 + 1) ⟨[⟨"f", "e", "s"⟩], []⟩ Queue.empty
        = (drainLoop ⟨testParse, "http://mdq.example", "/base/signed", fun _ =>
            ⟨200, some "application/xml", "A"⟩, "/tmp", fun _ => "t"⟩ []
            0 ⟨[], []⟩ Queue.empty).prepend
            [Ev.dequeued QueueName.delta ⟨"f", "e", "s"⟩ (([] : List Msg).length + 1),
              Ev.skippedMissing ⟨"f", "e", "s"⟩, Ev.acked ⟨"f", "e", "s"⟩]
      ∧ ∀ ddu : List Msg,
          drainLoop ⟨testParse, "http://mdq.example", "/base/signed", fun _ =>
              ⟨200, some "application/xml", "A"⟩, "/tmp", fun _ => "t"⟩ []
              (0 + 1) ⟨[], ddu⟩ ⟨[⟨"f", "e", "s"⟩], []⟩
            = (drainLoop ⟨testParse, "http://mdq.example", "/base/signed",
                fun _ => ⟨200, some "application/xml", "A"⟩, "/tmp",
                fun _ => "t"⟩ [] 0 ⟨[], ddu⟩ ⟨[], []⟩).prepend
                [Ev.dequeued QueueName.daily ⟨"f", "e", "s"⟩ 0,
                  Ev.skippedMissing ⟨"f", "e", "s"⟩, Ev.acked ⟨"f", "e", "s"⟩] :=
  drain_missing_file_acked ⟨testParse, "http://mdq.example", "/base/signed",
      fun _ => ⟨200, some "application/xml", "A"⟩, "/tmp", fun _ => "t"⟩ []
    ⟨"f", "e", "s"⟩ [] [] Queue.empty 0 (by decide)

/-- C10: the ack is strictly after the fetch attempt.  When the fetch of a
dequeued message is fatal, the loop aborts with that message still
checked out and unacked (no `acked` event was emitted for it), and on
reopening the queue store after the crash the message is redelivered at
the front of the pending list — at-least-once semantics for fetches. -/
theorem drain_fatal_fetch_unacked (env : FetchEnv) (incoming : Dir)
    (m : Msg) (rest du : List Msg) (daily : Queue) (r : Nat)
    (hex : memD incoming m.file = true)
    (hfat : fetchFatal env m.shasum = true) :
    (drainLoop env incoming (r + 1) ⟨m :: rest, du⟩ daily
        = DrainResult.aborted ⟨rest, du ++ [m]⟩ daily
            [Ev.dequeued QueueName.delta m (rest.length + 1)]
      ∧ m ∈ (Queue.mk rest (du ++ [m])).unacked
      ∧ Ev.acked m ∉ [Ev.dequeued QueueName.delta m (rest.length + 1)]
      ∧ m ∈ (Queue.reopen ⟨rest, du ++ [m]⟩).pending)
      ∧ ∀ ddu : List Msg,
          drainLoop env incoming (r + 1) ⟨[], ddu⟩ ⟨m :: rest, du⟩
            = DrainResult.aborted ⟨[], ddu⟩ ⟨rest, du ++ [m]⟩
                [Ev.dequeued QueueName.daily m 0] := by
  refine ⟨⟨?_, ?_, ?_, ?_⟩, ?_⟩
  · simp [drainLoop, Queue.get, Queue.size, hex, hfat]
  · simp [Queue.mk.injEq]
  · simp
  · simp [Queue.reopen]
  · intro ddu
    simp [drainLoop, Queue.get, Queue.size, hex, hfat]

/-- A fetch environment whose service answers HTTP 500 for every lookup:
every fetch is fatal. -/
def envFatal : FetchEnv :=
  ⟨testParse, "http://mdq.example", "/base/signed_metadata/entities",
    fun _ => ⟨500, none, ""⟩, "/tmp", fun _ => "tmpf"⟩

/-- Witness for C10: a message whose file exists, against the HTTP-500
service; the loop aborts with the message unacked and redeliverable. -/
theorem drain_fatal_fetch_unacked_witness :
    (drainLoop envFatal [("f", "A")] (2 + 1) ⟨[⟨"f", "e", "s"⟩], []⟩ Queue.empty
        = DrainResult.aborted ⟨[], [] ++ [⟨"f", "e", "s"⟩]⟩ Queue.empty
            [Ev.dequeued QueueName.delta ⟨"f", "e", "s"⟩ (([] : List Msg).length + 1)]
      ∧ (⟨"f", "e", "s"⟩ : Msg)
          ∈ (Queue.mk [] ([] ++ [⟨"f", "e", "s"⟩])).unacked
      ∧ Ev.acked ⟨"f", "e", "s"⟩
          ∉ [Ev.dequeued QueueName.delta ⟨"f", "e", "s"⟩ (([] : List Msg).length + 1)]
      ∧ (⟨"f", "e", "s"⟩ : Msg)
          ∈ (Queue.reopen ⟨[], [] ++ [⟨"f", "e", "s"⟩]⟩).pending)
      ∧ ∀ ddu : List Msg,
          drainLoop envFatal [("f", "A")] (2 + 1) ⟨[], ddu⟩
              ⟨[⟨"f", "e", "s"⟩], []⟩
            = DrainResult.aborted ⟨[], ddu⟩ ⟨[], [] ++ [⟨"f", "e", "s"⟩]⟩
                [Ev.dequeued QueueName.daily ⟨"f", "e", "s"⟩ 0] :=
  drain_fatal_fetch_unacked envFatal [("f", "A")] ⟨"f", "e", "s"⟩ [] []
    Queue.empty 2 (by decide) (by decide)

/-- C4 (code versus claim): `tempfile.NamedTemporaryFile(delete=False)` is
called with no `dir=` argument, so the temporary file is created in the
process's default temp directory, not in the destination's filesystem,
and publication is `shutil.move`, which is an atomic rename only when
source and destination share a filesystem (otherwise it degrades to
copy-then-delete at the final path).  Evaluated at a concrete successful
fetch with default temp dir `/tmp` and a destination elsewhere: the fetch
succeeds, the first filesystem action writes the body to `/tmp/tmpf123` —
a path not under the destination directory — and the publication is a
move of that path onto the digest-keyed destination path
`%7Bsha1%7D` + digest. -/
theorem fetch_tmp_in_default_tempdir :
    (download_signed_metadata testParse "http://mdq.example"
        "/base/signed_metadata/entities" "abc"
        ⟨200, some "application/xml", "<md/>"⟩ "/tmp" "tmpf123").fatal = none
      ∧ (download_signed_metadata testParse "http://mdq.example"
          "/base/signed_metadata/entities" "abc"
          ⟨200, some "application/xml", "<md/>"⟩ "/tmp" "tmpf123").actions
          = [FsAction.writeTmp "/tmp/tmpf123" "<md/>",
              FsAction.move "/tmp/tmpf123"
                "/base/signed_metadata/entities/%7Bsha1%7Dabc"]
      ∧ startswith "/tmp/tmpf123" "/base/signed_metadata/entities" = false := by
  refine ⟨by decide, by decide, by decide⟩

end Mdqp
